import Mathlib

/-!
Verification development for the fieldwise reactive form state container.

The definitions below are a shallow embedding of the event-driven core in
src/Form.ts of the fieldwise repository:

* the field store (Field, FieldSet, setValue, setValues, setError, setErrors),
* the event hub (doEmit, on, once, processQueuedEvents), and
* the validation coordinator (runValidation).

JavaScript null is modelled as Option.none, a JS object used as a record is
modelled as an association list in insertion order, and a JS Set of handler
functions is modelled as an ordered list of handler identities (Set insertion
order).  Where a method mutates state in place, the embedding passes state
explicitly and additionally records the observable effects (field
notifications, handler invocations) as explicit logs.
-/

namespace Fieldwise

/-- One field slot: current value, validation error (none = JS null) and
touched flag.  Mirrors the type Field of Form.ts. -/
structure Field (V : Type) where
  value : V
  error : Option String
  isTouched : Bool
  deriving DecidableEq, Repr

/-- The field set: ordered mapping from field key to Field, modelled as an
association list in key insertion order (mirrors FieldSet of Form.ts, a plain
JS object). -/
abbrev FieldSet (V : Type) := List (String × Field V)

/-- Property access this.fields[key] (None when the key is absent, i.e. the
JS value would be undefined). -/
def lookupField {V : Type} (fs : FieldSet V) (k : String) : Option (Field V) :=
  (fs.find? (fun kv => kv.1 = k)).map (fun kv => kv.2)

/-- In-place update of the entry at key k (mirrors assignment to
this.fields[key]); keys are left untouched. -/
def updateField {V : Type} (fs : FieldSet V) (k : String) (f : Field V) :
    FieldSet V :=
  fs.map (fun kv => if kv.1 = k then (k, f) else kv)

/-- A field notification, as handed to this.notify(key, field): the key and
the field snapshot at notification time. -/
abbrev Notification (V : Type) := String × Field V

/-- Form.setValue.  Guard: key in this.fields && this.fields[key].value !==
value.  On a real change the value is set, the error cleared to null, the
touched flag set, and the subscribers of the key are notified with the new
field snapshot; otherwise the call is a no-op.  Returns the new field set and
the list of notifications fired. -/
def setValue {V : Type} [DecidableEq V] (fs : FieldSet V) (k : String)
    (v : V) : FieldSet V × List (Notification V) :=
  match lookupField fs k with
  | some f =>
    if f.value ≠ v then
      let f' : Field V := { value := v, error := none, isTouched := true }
      (updateField fs k f', [(k, f')])
    else
      (fs, [])
  | none => (fs, [])

/-- Form.setValues: applies setValue for each key of the supplied mapping in
its insertion order, accumulating the notifications of every step. -/
def setValues {V : Type} [DecidableEq V] (fs : FieldSet V)
    (newValues : List (String × V)) : FieldSet V × List (Notification V) :=
  newValues.foldl
    (fun acc kv =>
      let r := setValue acc.1 kv.1 kv.2
      (r.1, acc.2 ++ r.2))
    (fs, [])

/-- Form.setError.  Guard: this.fields[key].error !== error; on change the
error is stored and subscribers notified.  The source reads
this.fields[key].error without a presence check, so the missing-key case
(which would throw in JS) is unreachable from setErrors, the only caller the
claims exercise; it is modelled as a no-op. -/
def setError {V : Type} (fs : FieldSet V) (k : String) (e : Option String) :
    FieldSet V × List (Notification V) :=
  match lookupField fs k with
  | some f =>
    if f.error ≠ e then
      let f' : Field V := { f with error := e }
      (updateField fs k f', [(k, f')])
    else
      (fs, [])
  | none => (fs, [])

/-- The JS expression newErrors[key] || null: an absent entry (undefined) and
an empty-string entry are both coerced to null; any other string passes
through. -/
def jsOrNull (o : Option String) : Option String :=
  match o with
  | some s => if s = "" then none else some s
  | none => none

/-- Form.setErrors: iterates over Object.keys(this.fields) (every field key,
in field-set order) and applies setError key (newErrors[key] || null). -/
def setErrors {V : Type} (fs : FieldSet V) (newErrors : List (String × String)) :
    FieldSet V × List (Notification V) :=
  (fs.map (fun kv => kv.1)).foldl
    (fun acc k =>
      let r := setError acc.1 k
        (jsOrNull ((newErrors.find? (fun kv => kv.1 = k)).map (fun kv => kv.2)))
      (r.1, acc.2 ++ r.2))
    (fs, [])

/-!
## Event hub

The per-event-name part of Form.ts: eventHandlers (a JS Set of handler
functions, insertion-ordered) and eventQueue (an array of queued argument
tuples).  Distinct event names never interact, so the model tracks one event
name.  A handler function is named by a Nat identity; the wrapper closure
built by Form.once is marked with isOnce (its body invokes the underlying
handler, then deletes itself from the handler set).  Handlers are observers:
the invocation of a handler with a payload is recorded in a log.  An absent
map entry and an empty Set or array are observationally identical in every
branch of the source, so both are modelled by the empty list.
-/

/-- One registered entry of the handler Set: the handler function's identity
and whether it is a self-removing wrapper created by Form.once. -/
structure Handler where
  id : Nat
  isOnce : Bool
  deriving DecidableEq, Repr

/-- The per-event-name state of the hub: registered handlers in Set insertion
order, queued payloads in FIFO order, plus the log of handler invocations
(handler identity, payload) recorded so far. -/
structure HubState (P : Type) where
  handlers : List Handler
  queue : List P
  log : List (Nat × P)
  deriving DecidableEq, Repr

/-- handlers.forEach(handler => handler(...args)) for one payload: every
registered handler is invoked once with the payload, and each once-wrapper
deletes itself after running (deleting the element being visited does not
disturb JS Set iteration). -/
def invokeAll {P : Type} (s : HubState P) (p : P) : HubState P :=
  { s with
    log := s.log ++ s.handlers.map (fun h => (h.id, p)),
    handlers := s.handlers.filter (fun h => !h.isOnce) }

/-- Form.doEmit: with no registered handler the payload is queued; otherwise
it is delivered to all currently registered handlers. -/
def doEmit {P : Type} (s : HubState P) (p : P) : HubState P :=
  if s.handlers.isEmpty then { s with queue := s.queue ++ [p] }
  else invokeAll s p

/-- Form.processQueuedEvents: while the queue is non-empty and handlers
exist, shift the oldest payload and deliver it to all current handlers
(once-wrappers removing themselves as they run). -/
def processQueued {P : Type} :
    List Handler → List P → List (Nat × P) → HubState P
  | hs, [], log => ⟨hs, [], log⟩
  | hs, p :: rest, log =>
    if hs.isEmpty then ⟨hs, p :: rest, log⟩
    else
      processQueued (hs.filter (fun h => !h.isOnce)) rest
        (log ++ hs.map (fun h => (h.id, p)))

/-- Form.on: Set.add of the handler (a no-op when the same function identity
is already registered), then processQueuedEvents. -/
def subscribeStep {P : Type} (s : HubState P) (id : Nat) : HubState P :=
  let hs :=
    if s.handlers.any (fun h => h.id = id) then s.handlers
    else s.handlers ++ [⟨id, false⟩]
  processQueued hs s.queue s.log

/-- Form.once: Set.add of a freshly constructed self-removing wrapper (a new
closure, hence always a new Set element), then processQueuedEvents. -/
def subscribeOnceStep {P : Type} (s : HubState P) (id : Nat) : HubState P :=
  processQueued (s.handlers ++ [⟨id, true⟩]) s.queue s.log

/-- The operations a caller can perform on the hub for one event name. -/
inductive HubOp (P : Type) where
  | emit (p : P)
  | subscribe (id : Nat)
  | subscribeOnce (id : Nat)
  deriving DecidableEq, Repr

/-- One caller operation. -/
def hubStep {P : Type} (s : HubState P) : HubOp P → HubState P
  | .emit p => doEmit s p
  | .subscribe id => subscribeStep s id
  | .subscribeOnce id => subscribeOnceStep s id

/-- Running a sequence of caller operations from the freshly constructed hub
(no handlers, no queue). -/
def runOps {P : Type} (ops : List (HubOp P)) : HubState P :=
  ops.foldl hubStep ⟨[], [], []⟩

/-!
## Live-Set iteration inside doEmit

handlers.forEach in Form.doEmit iterates the live Set while handlers may
themselves add or remove handlers.  Per JS Set semantics, iteration is in
insertion order; a value deleted before being visited is skipped, and a value
added during iteration is visited.  We model the Set as a list of slots
(none = a deleted slot, matching the tombstone behaviour observable through
iteration), a handler's body by the Set mutations it performs when invoked,
and forEach by an index walk over the evolving slot list.  A handler that
re-adds handlers can make the walk unbounded (as the real loop would be), so
the walk carries explicit fuel; all results below are stated at sufficient
fuel. -/

/-- A mutation of the handler Set performed by a handler's body. -/
inductive SetOp where
  | add (id : Nat)
  | remove (id : Nat)
  deriving DecidableEq, Repr

/-- Set.add appends a value not yet present; Set.delete empties the slot
holding the value. -/
def applySetOp (slots : List (Option Nat)) : SetOp → List (Option Nat)
  | .add id =>
    if slots.contains (some id) then slots else slots ++ [some id]
  | .remove id => slots.map (fun s => if s = some id then none else s)

/-- Set.forEach from slot index i: visit the slot at i when live, run the
visited handler's Set mutations (beh id), and continue at i + 1 over the
mutated slot list.  Returns the invocation order and the final slots. -/
def forEachFrom (beh : Nat → List SetOp) :
    Nat → Nat → List (Option Nat) → List Nat × List (Option Nat)
  | 0, _, slots => ([], slots)
  | fuel + 1, i, slots =>
    if h : i < slots.length then
      match slots.get ⟨i, h⟩ with
      | none => forEachFrom beh fuel (i + 1) slots
      | some id =>
        let slots' := (beh id).foldl applySetOp slots
        let r := forEachFrom beh fuel (i + 1) slots'
        (id :: r.1, r.2)
    else ([], slots)

/-- The handlers registered in the Set, in insertion order. -/
def liveIds (slots : List (Option Nat)) : List Nat :=
  slots.filterMap (fun s => s)

/-- The delivery pass of Form.doEmit when at least one handler is registered:
handlers.forEach over the live Set, from the first slot.  Returns the
sequence of handler invocations of this publish. -/
def doEmitInvoked (beh : Nat → List SetOp) (slots : List (Option Nat))
    (fuel : Nat) : List Nat :=
  (forEachFrom beh fuel 0 slots).1

/-!
## Validation coordinator

Form.runValidation.  A JS error object is an association list with distinct
keys built by Object.assign; a validator is its declared parameter count
(fn.length, what the spec calls arity) together with its behaviour as a
function of the two values JS would bind to its parameters — the source
always calls validator(values), so the second parameter is always bound to
undefined (modelled none).  A synchronous return is sync r; a returned
Promise eventually resolving to r is async r.  The run is recorded as: the
argument list of every validator invocation, the pending results awaited, the
emission trace (each with the value of this.isValidating at emission time)
and the final flag.
-/

/-- A JS error-mapping object: field key to message, insertion-ordered,
distinct keys when built by setKey from the empty object. -/
abbrev ErrMap := List (String × String)

/-- Assignment errors[k] = v: overwrite in place, or append a new key. -/
def setKey (m : ErrMap) (k v : String) : ErrMap :=
  if m.any (fun kv => kv.1 = k) then
    m.map (fun kv => if kv.1 = k then (k, v) else kv)
  else m ++ [(k, v)]

/-- Object.assign(a, b): every entry of b written into a, in b's order. -/
def objAssign (a b : ErrMap) : ErrMap :=
  b.foldl (fun acc kv => setKey acc kv.1 kv.2) a

/-- The merge loops of runValidation: for each result, if (result)
Object.assign(errors, result) — null results are skipped, object results
(empty ones included) are assigned. -/
def mergeResults (rs : List (Option ErrMap)) (init : ErrMap) : ErrMap :=
  rs.foldl
    (fun acc o =>
      match o with
      | some m => objAssign acc m
      | none => acc)
    init

/-- What one validator call produces: a synchronous result or a Promise with
its eventual resolution (null modelled none in both cases). -/
inductive VOutcome where
  | sync (r : Option ErrMap)
  | async (r : Option ErrMap)
  deriving DecidableEq, Repr

/-- A registered validator: its declared parameter count (fn.length) and its
behaviour given the values snapshot and whatever JS binds to its second
parameter (none = undefined). -/
structure Validator (V : Type) where
  arity : Nat
  fn : V → Option ErrMap → VOutcome

/-- The dispatch loop of runValidation: each validator is called as
validator(values) — one argument, so the second parameter is bound to
undefined (none) — and its result is routed to syncResults or
asyncValidators in registration order.  Returns (invocation records,
syncResults, asyncValidators). -/
def runValidators {V : Type} (values : V) :
    List (Validator V) →
      List (Nat × V × Option ErrMap) × List (Option ErrMap) × List (Option ErrMap)
  | [] => ([], [], [])
  | vd :: rest =>
    let res := vd.fn values none
    let r := runValidators values rest
    match res with
    | .sync o => ((vd.arity, values, none) :: r.1, o :: r.2.1, r.2.2)
    | .async o => ((vd.arity, values, none) :: r.1, r.2.1, o :: r.2.2)

/-- The signals of one validation run. -/
inductive VEvent (V : Type) where
  | validationStart
  | validated (values : V) (errors : Option ErrMap)
  deriving DecidableEq, Repr

/-- The observable record of one runValidation call: every validator
invocation (declared arity, first argument, second argument), the pending
results that were awaited, the emission trace tagged with isValidating at
emission time, and the final value of the flag. -/
structure RunResult (V : Type) where
  calls : List (Nat × V × Option ErrMap)
  awaited : List (Option ErrMap)
  trace : List (Bool × VEvent V)
  finalValidating : Bool
  deriving Repr

/-- Form.runValidation: set isValidating, emit validationStart, dispatch all
validators once with the snapshot, merge synchronous results; when that merge
is non-empty, reset the flag and emit validated with it at once (pending
results are neither awaited nor merged); otherwise await all pending results,
merge them on top in registration order, reset the flag and emit validated
with the final mapping, or null when it is empty. -/
def runValidation {V : Type} (validators : List (Validator V)) (values : V) :
    RunResult V :=
  let r := runValidators values validators
  let errors := mergeResults r.2.1 []
  if errors.length > 0 then
    { calls := r.1, awaited := [],
      trace := [(true, .validationStart), (false, .validated values (some errors))],
      finalValidating := false }
  else
    let final := mergeResults r.2.2 errors
    { calls := r.1, awaited := r.2.2,
      trace :=
        [(true, .validationStart),
         (false, .validated values (if final.length > 0 then some final else none))],
      finalValidating := false }

/-!
## Field-store lemmas
-/

theorem lookupField_nil {V : Type} (k : String) :
    lookupField ([] : FieldSet V) k = none := rfl

theorem lookupField_cons {V : Type} (kv : String × Field V)
    (rest : List (String × Field V)) (k : String) :
    lookupField (kv :: rest) k
      = if kv.1 = k then some kv.2 else lookupField rest k := by
  by_cases h : kv.1 = k <;> simp [lookupField, List.find?_cons, h]

theorem updateField_nil {V : Type} (k : String) (f : Field V) :
    updateField ([] : FieldSet V) k f = [] := rfl

theorem updateField_cons {V : Type} (kv : String × Field V)
    (rest : List (String × Field V)) (k : String) (f : Field V) :
    updateField (kv :: rest) k f
      = (if kv.1 = k then (k, f) else kv) :: updateField rest k f := rfl

theorem lookupField_updateField {V : Type} (fs : FieldSet V) (k : String)
    (f : Field V) (h : (lookupField fs k).isSome) :
    lookupField (updateField fs k f) k = some f := by
  induction fs with
  | nil => simp [lookupField_nil] at h
  | cons kv rest ih =>
    rw [updateField_cons]
    by_cases hk : kv.1 = k
    · rw [if_pos hk, lookupField_cons, if_pos rfl]
    · rw [lookupField_cons, if_neg hk] at h
      rw [if_neg hk, lookupField_cons, if_neg hk]
      exact ih h

theorem lookupField_updateField_ne {V : Type} (fs : FieldSet V)
    (k k' : String) (f : Field V) (h : k' ≠ k) :
    lookupField (updateField fs k f) k' = lookupField fs k' := by
  induction fs with
  | nil => rfl
  | cons kv rest ih =>
    rw [updateField_cons, lookupField_cons, lookupField_cons]
    by_cases hk : kv.1 = k
    · have hkk' : ¬ (k = k') := fun he => h he.symm
      rw [if_pos hk]
      simp only [hkk', if_false]
      rw [if_neg (fun he => hkk' (hk ▸ he))]
      exact ih
    · rw [if_neg hk]
      by_cases hk' : kv.1 = k'
      · rw [if_pos hk', if_pos hk']
      · rw [if_neg hk', if_neg hk']
        exact ih

theorem keys_updateField {V : Type} (fs : FieldSet V) (k : String)
    (f : Field V) :
    (updateField fs k f).map (fun kv => kv.1) = fs.map (fun kv => kv.1) := by
  induction fs with
  | nil => rfl
  | cons kv rest ih =>
    rw [updateField_cons, List.map_cons, List.map_cons, ih]
    by_cases hk : kv.1 = k
    · rw [if_pos hk, hk]
    · rw [if_neg hk]

/-- C10: setValue on a key that is not a key of the field set leaves every
field unchanged and fires no notification (and, the function being total, the
call does not throw); the same holds when the call is reached through
setValues with that key in its mapping. -/
theorem setValue_unknown_key_noop {V : Type} [DecidableEq V]
    (fs : FieldSet V) (K : String) (v : V)
    (h : lookupField fs K = none) :
    setValue fs K v = (fs, []) ∧ setValues fs [(K, v)] = (fs, []) := by
  have h1 : setValue fs K v = (fs, []) := by
    unfold setValue
    rw [h]
  refine ⟨h1, ?_⟩
  unfold setValues
  rw [List.foldl_cons, List.foldl_nil]
  simp only [h1]
  rfl

theorem setValue_unknown_key_noop_witness :
    setValue [("a", (⟨0, none, false⟩ : Field Nat))] "b" 5
        = ([("a", ⟨0, none, false⟩)], []) ∧
      setValues [("a", (⟨0, none, false⟩ : Field Nat))] [("b", 5)]
        = ([("a", ⟨0, none, false⟩)], []) :=
  setValue_unknown_key_noop [("a", ⟨0, none, false⟩)] "b" 5 (by decide)

/-- C3 counterexample: a field holding value "" with a non-null error and an
untouched flag; setValue with the same value "" is a no-op, so afterwards the
error is still "bad" (not null) and the touched flag is still false (not
true), contrary to the claim's "regardless of prior state (including the case
where v equals the field's current value)". -/
theorem setValue_noop_counterexample :
    lookupField
        (setValue [("a", (⟨"", some "bad", false⟩ : Field String))] "a" "").1 "a"
      = some ⟨"", some "bad", false⟩ ∧
    (some "bad" : Option String) ≠ none ∧ false ≠ true := by decide

/-- C3 (amended): after setValue(key, v) with v different from the field's
current value, get(key) has value v, error null and isTouched true, and one
notification with that snapshot fires; when v equals the current value the
call is a no-op that leaves the field's prior state in place. -/
theorem setValue_changed_state {V : Type} [DecidableEq V]
    (fs : FieldSet V) (k : String) (v : V) (f : Field V)
    (hf : lookupField fs k = some f) (hne : f.value ≠ v) :
    lookupField (setValue fs k v).1 k = some ⟨v, none, true⟩ ∧
    (setValue fs k v).2 = [(k, ⟨v, none, true⟩)] := by
  have hv : setValue fs k v = (updateField fs k ⟨v, none, true⟩,
      [(k, (⟨v, none, true⟩ : Field V))]) := by
    unfold setValue
    rw [hf]
    dsimp only
    rw [if_pos hne]
  rw [hv]
  refine ⟨?_, rfl⟩
  exact lookupField_updateField fs k _ (by rw [hf]; rfl)

theorem setValue_changed_state_witness :
    lookupField
        (setValue [("a", (⟨0, some "e", false⟩ : Field Nat))] "a" 5).1 "a"
      = some ⟨5, none, true⟩ ∧
    (setValue [("a", (⟨0, some "e", false⟩ : Field Nat))] "a" 5).2
      = [("a", ⟨5, none, true⟩)] :=
  setValue_changed_state [("a", ⟨0, some "e", false⟩)] "a" 5
    ⟨0, some "e", false⟩ (by decide) (by decide)

theorem lookupField_setError_self {V : Type} (fs : FieldSet V) (k : String)
    (e : Option String) (f : Field V) (hf : lookupField fs k = some f) :
    lookupField (setError fs k e).1 k = some { f with error := e } := by
  unfold setError
  rw [hf]
  dsimp only
  by_cases he : f.error ≠ e
  · rw [if_pos he]
    exact lookupField_updateField fs k _ (by rw [hf]; rfl)
  · rw [if_neg he]
    have heq : f.error = e := not_not.mp he
    rw [hf, ← heq]

theorem lookupField_setError_ne {V : Type} (fs : FieldSet V) (k k' : String)
    (e : Option String) (h : k' ≠ k) :
    lookupField (setError fs k e).1 k' = lookupField fs k' := by
  unfold setError
  cases hf : lookupField fs k with
  | none => rfl
  | some f =>
    dsimp only
    by_cases he : f.error ≠ e
    · rw [if_pos he]
      exact lookupField_updateField_ne fs k k' _ h
    · rw [if_neg he]

/-- The field-set component of the setErrors key loop, isolated from the
notification accumulator for proof purposes. -/
def applyErrors {V : Type} (fs : FieldSet V) (ks : List String)
    (g : String → Option String) : FieldSet V :=
  ks.foldl (fun acc k => (setError acc k (g k)).1) fs

theorem foldl_pairAcc_fst {α β γ : Type} (f : α → γ → α × List β) :
    ∀ (ks : List γ) (a : α) (l : List β),
      (ks.foldl (fun acc k => ((f acc.1 k).1, acc.2 ++ (f acc.1 k).2)) (a, l)).1
        = ks.foldl (fun x k => (f x k).1) a := by
  intro ks
  induction ks with
  | nil => intro a l; rfl
  | cons k rest ih =>
    intro a l
    rw [List.foldl_cons, List.foldl_cons]
    exact ih _ _

theorem setErrors_fst {V : Type} (fs : FieldSet V)
    (es : List (String × String)) :
    (setErrors fs es).1
      = applyErrors fs (fs.map (fun kv => kv.1))
          (fun k => jsOrNull
            ((es.find? (fun kv => kv.1 = k)).map (fun kv => kv.2))) := by
  unfold setErrors applyErrors
  exact foldl_pairAcc_fst
    (fun a k => setError a k
      (jsOrNull ((es.find? (fun kv => kv.1 = k)).map (fun kv => kv.2))))
    (fs.map (fun kv => kv.1)) fs []

theorem lookupField_applyErrors_notin {V : Type} (ks : List String)
    (g : String → Option String) (k : String) (h : k ∉ ks) :
    ∀ fs : FieldSet V,
      lookupField (applyErrors fs ks g) k = lookupField fs k := by
  induction ks with
  | nil => intro fs; rfl
  | cons k0 rest ih =>
    intro fs
    have hk : k ≠ k0 := fun he => h (he ▸ List.mem_cons_self k0 rest)
    have hrest : k ∉ rest := fun hm => h (List.mem_cons_of_mem _ hm)
    unfold applyErrors
    rw [List.foldl_cons]
    exact ((ih hrest) _).trans (lookupField_setError_ne fs k0 k _ hk)

theorem lookupField_applyErrors_mem {V : Type} (ks : List String)
    (g : String → Option String) (k : String) (hnd : ks.Nodup)
    (hmem : k ∈ ks) :
    ∀ (fs : FieldSet V) (f : Field V), lookupField fs k = some f →
      lookupField (applyErrors fs ks g) k = some { f with error := g k } := by
  induction ks with
  | nil => cases hmem
  | cons k0 rest ih =>
    intro fs f hf
    unfold applyErrors
    rw [List.foldl_cons]
    by_cases hk : k = k0
    · subst hk
      have hnotin : k ∉ rest := (List.nodup_cons.mp hnd).1
      have h1 : lookupField (setError fs k (g k)).1 k
          = some { f with error := g k } :=
        lookupField_setError_self fs k (g k) f hf
      exact (lookupField_applyErrors_notin rest g k hnotin _).trans h1
    · have hmem' : k ∈ rest := by
        cases List.mem_cons.mp hmem with
        | inl h1 => exact absurd h1 hk
        | inr h1 => exact h1
      have hf' : lookupField (setError fs k0 (g k0)).1 k = some f := by
        rw [lookupField_setError_ne fs k0 k _ hk]
        exact hf
      exact ih (List.nodup_cons.mp hnd).2 hmem' _ f hf'

/-- C7 counterexample: the entry ("a", "") is present in the mapping handed
to setErrors, yet afterwards the error of key "a" is null, not "": the JS
coercion newErrors[key] || null turns the present empty-string entry into
null, so the field's error does not equal the mapping's entry. -/
theorem setErrors_empty_string_counterexample :
    lookupField
        (setErrors [("a", (⟨0, some "old", true⟩ : Field Nat))] [("a", "")]).1 "a"
      = some ⟨0, none, true⟩ ∧ (none : Option String) ≠ some "" := by decide

/-- C7 (amended): for every mapping passed to setErrors and every key of the
field set, the key's error afterwards equals the mapping's entry for that key
when present and non-empty, and null otherwise — a key absent from the
mapping, or present with the empty string (which the JS truthiness coercion
treats as absent), has its error cleared to null, even if it previously held
a non-null error; no key's value or touched flag is altered. -/
theorem setErrors_full_replace {V : Type} (fs : FieldSet V)
    (es : List (String × String)) (k : String) (f : Field V)
    (hnd : (fs.map (fun kv => kv.1)).Nodup)
    (hf : lookupField fs k = some f) :
    lookupField (setErrors fs es).1 k
      = some { f with
          error := jsOrNull
            ((es.find? (fun kv => kv.1 = k)).map (fun kv => kv.2)) } := by
  rw [setErrors_fst]
  have hmem : k ∈ fs.map (fun kv => kv.1) := by
    unfold lookupField at hf
    cases hfind : fs.find? (fun kv => kv.1 = k) with
    | none => rw [hfind] at hf; cases hf
    | some kv =>
      have h1 : kv ∈ fs := List.mem_of_find?_eq_some hfind
      have h2 : kv.1 = k := by
        have h3 := List.find?_some hfind
        simpa using h3
      exact h2 ▸ List.mem_map_of_mem _ h1
  exact lookupField_applyErrors_mem _ _ k hnd hmem fs f hf

theorem setErrors_full_replace_witness :
    lookupField
        (setErrors
          [("a", (⟨0, some "old", false⟩ : Field Nat)), ("b", ⟨1, none, true⟩)]
          [("b", "msg")]).1 "a"
      = some ⟨0, none, false⟩ :=
  setErrors_full_replace
    [("a", ⟨0, some "old", false⟩), ("b", ⟨1, none, true⟩)] [("b", "msg")]
    "a" ⟨0, some "old", false⟩ (by decide) (by decide)

/-!
## Event-hub lemmas
-/

theorem emitFold {P : Type} (ps : List P) :
    ∀ (q : List P) (log : List (Nat × P)),
      ps.foldl (fun s p => doEmit s p) (⟨[], q, log⟩ : HubState P)
        = ⟨[], q ++ ps, log⟩ := by
  induction ps with
  | nil => intro q log; simp
  | cons p rest ih =>
    intro q log
    rw [List.foldl_cons]
    have h1 : doEmit (⟨[], q, log⟩ : HubState P) p = ⟨[], q ++ [p], log⟩ := by
      unfold doEmit
      simp
    rw [h1, ih (q ++ [p]) log]
    simp

theorem processQueued_plain {P : Type} (id : Nat) (q : List P) :
    ∀ log : List (Nat × P),
      processQueued [⟨id, false⟩] q log
        = ⟨[⟨id, false⟩], [], log ++ q.map (fun p => (id, p))⟩ := by
  induction q with
  | nil => intro log; simp [processQueued]
  | cons p rest ih =>
    intro log
    show processQueued [⟨id, false⟩] (p :: rest) log = _
    unfold processQueued
    rw [if_neg (by simp)]
    show processQueued [⟨id, false⟩] rest (log ++ [(id, p)]) = _
    rw [ih (log ++ [(id, p)])]
    simp

/-- C5: from a state with zero subscribers for the event name, emitting the
payloads ps (N ≥ 1 of them) queues them, and the first subsequent subscribe
delivers all N queued payloads to the new handler synchronously during the
subscribe call, in original emission order, exactly once each, leaving the
queue empty. -/
theorem subscribe_drains_queue {P : Type} (ps : List P) (id : Nat)
    (hps : ps ≠ []) :
    runOps (ps.map HubOp.emit ++ [HubOp.subscribe id])
      = ⟨[⟨id, false⟩], [], ps.map (fun p => (id, p))⟩ := by
  unfold runOps
  rw [List.foldl_append, List.foldl_map]
  have h1 : ps.foldl (fun s p => hubStep s (HubOp.emit p))
      (⟨[], [], []⟩ : HubState P) = ⟨[], ps, []⟩ :=
    emitFold ps [] []
  rw [h1, List.foldl_cons, List.foldl_nil]
  show subscribeStep (⟨[], ps, []⟩ : HubState P) id = _
  show processQueued [⟨id, false⟩] ps [] = _
  exact processQueued_plain id ps []

theorem subscribe_drains_queue_witness :
    runOps ([10, 20].map HubOp.emit ++ [HubOp.subscribe 7])
      = (⟨[⟨7, false⟩], [], [(7, 10), (7, 20)]⟩ : HubState Nat) :=
  subscribe_drains_queue [10, 20] 7 (by decide)

/-- C6: with N ≥ 2 payloads queued for the event name and zero subscribers,
registering a subscribeOnce handler invokes it with exactly the first queued
payload; the self-removing wrapper is gone from the handler set immediately
afterwards, so the handler set is empty while the second payload is still in
the queue (it is therefore not delivered to this handler). -/
theorem subscribeOnce_first_queued {P : Type} (p1 p2 : P) (rest : List P)
    (id : Nat) :
    runOps ((p1 :: p2 :: rest).map HubOp.emit ++ [HubOp.subscribeOnce id])
      = ⟨[], p2 :: rest, [(id, p1)]⟩ := by
  unfold runOps
  rw [List.foldl_append, List.foldl_map]
  have h1 : (p1 :: p2 :: rest).foldl (fun s p => hubStep s (HubOp.emit p))
      (⟨[], [], []⟩ : HubState P) = ⟨[], p1 :: p2 :: rest, []⟩ :=
    emitFold _ [] []
  rw [h1, List.foldl_cons, List.foldl_nil]
  show subscribeOnceStep (⟨[], p1 :: p2 :: rest, []⟩ : HubState P) id = _
  show processQueued [⟨id, true⟩] (p1 :: p2 :: rest) [] = _
  unfold processQueued
  rw [if_neg (by simp)]
  show processQueued [] (p2 :: rest) [(id, p1)] = _
  unfold processQueued
  simp

theorem processQueued_inv {P : Type} (q : List P) :
    ∀ (hs : List Handler) (log : List (Nat × P)),
      (processQueued hs q log).queue ≠ [] →
        (processQueued hs q log).handlers = [] := by
  induction q with
  | nil => intro hs log h; exact absurd rfl h
  | cons p rest ih =>
    intro hs log h
    by_cases he : hs.isEmpty
    · simp only [processQueued, if_pos he] at h ⊢
      exact List.isEmpty_iff.mp he
    · simp only [processQueued, if_neg he] at h ⊢
      exact ih _ _ h

theorem hubStep_inv {P : Type} (s : HubState P) (op : HubOp P)
    (hinv : s.queue ≠ [] → s.handlers = []) :
    (hubStep s op).queue ≠ [] → (hubStep s op).handlers = [] := by
  cases op with
  | emit p =>
    show (doEmit s p).queue ≠ [] → (doEmit s p).handlers = []
    unfold doEmit
    by_cases he : s.handlers.isEmpty
    · rw [if_pos he]
      intro _
      exact List.isEmpty_iff.mp he
    · rw [if_neg he]
      intro hq
      have h1 : s.queue ≠ [] := hq
      exact absurd (by rw [hinv h1]; rfl) he
  | subscribe id => exact processQueued_inv _ _ _
  | subscribeOnce id => exact processQueued_inv _ _ _

theorem foldl_hubStep_inv {P : Type} (ops : List (HubOp P)) :
    ∀ s : HubState P, (s.queue ≠ [] → s.handlers = []) →
      ((ops.foldl hubStep s).queue ≠ [] → (ops.foldl hubStep s).handlers = []) := by
  induction ops with
  | nil => intro s h; exact h
  | cons op rest ih =>
    intro s h
    rw [List.foldl_cons]
    exact ih _ (hubStep_inv s op h)

/-- C8: in every state of the hub reachable by any sequence of emit,
subscribe and subscribeOnce operations from the freshly constructed
container, a non-empty queue for an event name implies that no subscriber is
currently registered for that name. -/
theorem queue_nonempty_no_handlers {P : Type} (ops : List (HubOp P))
    (h : (runOps ops).queue ≠ []) : (runOps ops).handlers = [] :=
  foldl_hubStep_inv ops ⟨[], [], []⟩ (fun _ => rfl) h

theorem queue_nonempty_no_handlers_witness :
    (runOps [HubOp.emit (5 : Nat)]).handlers = [] :=
  queue_nonempty_no_handlers [HubOp.emit 5] (by decide)

/-!
## Live-Set iteration lemmas
-/

theorem forEachFrom_passive (beh : Nat → List SetOp) (hbeh : ∀ n, beh n = [])
    (slots : List (Option Nat)) :
    ∀ (fuel i : Nat), slots.length - i ≤ fuel →
      forEachFrom beh fuel i slots = (liveIds (slots.drop i), slots) := by
  intro fuel
  induction fuel with
  | zero =>
    intro i hi
    have hle : slots.length ≤ i := by omega
    rw [List.drop_eq_nil_of_le hle]
    rfl
  | succ fuel ih =>
    intro i hi
    unfold forEachFrom
    by_cases h : i < slots.length
    · rw [dif_pos h]
      have hdrop : slots.drop i = slots[i] :: slots.drop (i + 1) :=
        List.drop_eq_getElem_cons h
      have hrec : slots.length - (i + 1) ≤ fuel := by omega
      cases hg : slots.get ⟨i, h⟩ with
      | none =>
        rw [ih (i + 1) hrec]
        have hgi : slots[i] = none := hg
        rw [hdrop, hgi]
        simp [liveIds]
      | some id =>
        have hslots' : (beh id).foldl applySetOp slots = slots := by
          rw [hbeh id]
          rfl
        dsimp only
        rw [hslots', ih (i + 1) hrec]
        have hgi : slots[i] = some id := hg
        rw [hdrop, hgi]
        simp [liveIds]
    · rw [dif_neg h]
      have hle : slots.length ≤ i := Nat.le_of_not_lt h
      rw [List.drop_eq_nil_of_le hle]
      rfl

/-- A delivery set of two handlers in which the body of handler 1 removes
handler 2 from the handler Set. -/
def behRemoveSecond : Nat → List SetOp :=
  fun n => if n = 1 then [SetOp.remove 2] else []

/-- C4 counterexample: a publish starting with the two registered handlers 1
and 2, where handler 1 removes handler 2 during the publish.  The handlers
invoked are [1] while the delivery set at the start of the publish was
[1, 2]: handler 2, a member of the original delivery set, is skipped, so the
invoked set is not the set registered when the publish began. -/
theorem doEmit_live_iteration_counterexample :
    doEmitInvoked behRemoveSecond [some 1, some 2] 4 = [1] ∧
    liveIds [some 1, some 2] = [1, 2] ∧ ([1] : List Nat) ≠ [1, 2] := by decide

/-- C4 (amended): doEmit iterates the live handler Set, not a snapshot: when
no handler adds or removes handlers during the publish, exactly the handlers
registered when the publish began are invoked, in registration order, once
each; but a handler of the original delivery set that an earlier handler
removes before it is reached is skipped (see the counterexample). -/
theorem doEmit_passive_snapshot (beh : Nat → List SetOp)
    (slots : List (Option Nat)) (fuel : Nat) (hbeh : ∀ n, beh n = [])
    (hfuel : slots.length ≤ fuel) :
    doEmitInvoked beh slots fuel = liveIds slots := by
  unfold doEmitInvoked
  rw [forEachFrom_passive beh hbeh slots fuel 0 (by omega)]
  simp

theorem doEmit_passive_snapshot_witness :
    doEmitInvoked (fun _ => []) [some 3, none, some 4] 3
      = liveIds [some 3, none, some 4] :=
  doEmit_passive_snapshot (fun _ => []) [some 3, none, some 4] 3
    (fun _ => rfl) (by decide)

/-!
## Validation-coordinator lemmas
-/

/-- C9: a validation run sets isValidating and emits validationStart as its
first signal (the flag reads true at that emission); it emits the terminal
validated signal exactly once — the trace is exactly validationStart followed
by one validated — and isValidating is false at the moment the terminal
signal is emitted (it is reset before emission), on both the with-errors and
the no-errors path; the flag ends false. -/
theorem runValidation_terminal_trace {V : Type}
    (validators : List (Validator V)) (values : V) :
    (∃ e, (runValidation validators values).trace
        = [(true, VEvent.validationStart),
           (false, VEvent.validated values e)]) ∧
    (runValidation validators values).finalValidating = false := by
  unfold runValidation
  dsimp only
  split
  · exact ⟨⟨_, rfl⟩, rfl⟩
  · exact ⟨⟨_, rfl⟩, rfl⟩

theorem runValidators_calls {V : Type} (values : V) :
    ∀ validators : List (Validator V),
      (runValidators values validators).1
        = validators.map
            (fun vd => (vd.arity, values, (none : Option ErrMap))) := by
  intro validators
  induction validators with
  | nil => rfl
  | cons vd rest ih =>
    rw [List.map_cons]
    unfold runValidators
    dsimp only
    cases h : vd.fn values none with
    | sync o => dsimp only; rw [ih]
    | async o => dsimp only; rw [ih]

/-- A validator declaring two parameters (values, errors) — an
error-dependent validator in the spec's terminology — registered alone. -/
def errDependentValidator : Validator Nat :=
  ⟨2, fun _ _ => VOutcome.sync none⟩

/-- C1 counterexample: with a single error-dependent (two-parameter)
validator registered, the validation run triggered by a validate request
invokes it with undefined (none) bound to its second parameter — not with
the merged synchronous error mapping of the pure validators that ran before
it (here that merge is the empty mapping, so the claim requires the second
argument some []): the coordinator always calls validator(values) with one
argument. -/
theorem runValidation_second_arg_counterexample :
    (runValidation [errDependentValidator] 0).calls = [(2, 0, none)] ∧
    ¬ ∀ c ∈ (runValidation [errDependentValidator] 0).calls,
        2 ≤ c.1 → c.2.2 = some [] := by
  exact ⟨by decide, by decide⟩

/-- C1 (amended): in every validation run triggered by a validate request,
every registered validator — error-dependent (two-parameter) ones included —
is invoked with the values snapshot as its only argument; the second
parameter is bound to undefined (none), never to the merged synchronous
error mapping. -/
theorem runValidation_snapshot_only {V : Type}
    (validators : List (Validator V)) (values : V) :
    (runValidation validators values).calls
      = validators.map
          (fun vd => (vd.arity, values, (none : Option ErrMap))) := by
  unfold runValidation
  dsimp only
  split
  · exact runValidators_calls values validators
  · exact runValidators_calls values validators

/-- A validator whose synchronous result is the error mapping a ↦ x. -/
def syncErrValidator : Validator Nat :=
  ⟨1, fun _ _ => VOutcome.sync (some [("a", "x")])⟩

/-- A validator returning a pending (asynchronous) result that resolves to
the error mapping b ↦ y. -/
def asyncErrValidator : Validator Nat :=
  ⟨1, fun _ _ => VOutcome.async (some [("b", "y")])⟩

/-- C2 counterexample: one validator returns the synchronous errors
a ↦ x and another returns a pending result resolving to b ↦ y.  The merged
synchronous mapping is non-empty and a pending result exists, yet the run
awaits no pending result and the terminal validated signal carries only
a ↦ x — not the claim's merge of synchronous and asynchronous results,
which would also contain b ↦ y. -/
theorem runValidation_sync_short_circuit_counterexample :
    (runValidation [syncErrValidator, asyncErrValidator] 0).awaited = [] ∧
    (runValidation [syncErrValidator, asyncErrValidator] 0).trace
      = [(true, VEvent.validationStart),
         (false, VEvent.validated 0 (some [("a", "x")]))] ∧
    (some [("a", "x")] : Option ErrMap) ≠ some [("a", "x"), ("b", "y")] := by
  decide

/-- C2 (amended): in every validation run in which the merged synchronous
error mapping is non-empty, the coordinator awaits no pending
(asynchronous) result and immediately emits the terminal validated signal
carrying exactly the merged synchronous mapping; asynchronous results are
neither awaited nor merged on this path. -/
theorem runValidation_sync_short_circuit {V : Type}
    (validators : List (Validator V)) (values : V)
    (h : mergeResults (runValidators values validators).2.1 [] ≠ []) :
    (runValidation validators values).awaited = [] ∧
    (runValidation validators values).trace
      = [(true, VEvent.validationStart),
         (false, VEvent.validated values
           (some (mergeResults (runValidators values validators).2.1 [])))] := by
  have hlen : (mergeResults (runValidators values validators).2.1 []).length > 0 :=
    List.length_pos.mpr h
  unfold runValidation
  dsimp only
  rw [if_pos hlen]
  exact ⟨rfl, rfl⟩

theorem runValidation_sync_short_circuit_witness :
    (runValidation [syncErrValidator] 0).awaited = [] ∧
    (runValidation [syncErrValidator] 0).trace
      = [(true, VEvent.validationStart),
         (false, VEvent.validated 0
           (some (mergeResults (runValidators 0 [syncErrValidator]).2.1 [])))] :=
  runValidation_sync_short_circuit [syncErrValidator] 0 (by decide)

end Fieldwise
